import Mathlib

set_option maxRecDepth 8000

attribute [local semireducible] Rat.add Rat.mul Rat.inv Rat.sub

/- Verification development for the Harnosands HF worker (src/index.js).
   JavaScript Date millisecond time values are modelled as Int (none standing
   for the NaN time value of an invalid Date), JavaScript numbers obtained
   from query strings as Rat.  The execution environment local time zone is
   modelled as a fixed offset tz in minutes with the sign convention of
   Date.prototype.getTimezoneOffset (UTC minus local). -/

namespace HHF

/-- Leap year rule of the proleptic Gregorian calendar. -/
def isLeapYear (y : Int) : Bool :=
  (y % 4 == 0 && y % 100 != 0) || y % 400 == 0

/-- Number of days of a month (1..12). -/
def daysInMonth (y : Int) (m : Nat) : Nat :=
  if m == 2 then (if isLeapYear y then 29 else 28)
  else if m == 4 || m == 6 || m == 9 || m == 11 then 30 else 31

/-- Day count from 1970-01-01 to the given Gregorian date (the
    days_from_civil algorithm on the proleptic Gregorian calendar). -/
def daysFromCivil (y : Int) (m d : Nat) : Int :=
  let y2 : Int := if m ≤ 2 then y - 1 else y
  let era : Int := Int.fdiv y2 400
  let yoe : Nat := (y2 - era * 400).toNat
  let mp : Nat := if m > 2 then m - 3 else m + 9
  let doy : Nat := (153 * mp + 2) / 5 + d - 1
  let doe : Nat := yoe * 365 + yoe / 4 - yoe / 100 + doy
  era * 146097 + (doe : Int) - 719468

/-- Gregorian date of a day count relative to 1970-01-01 (the civil_from_days
    algorithm). -/
def civilFromDays (z0 : Int) : Int × Nat × Nat :=
  let z : Int := z0 + 719468
  let era : Int := Int.fdiv z 146097
  let doe : Nat := (z - era * 146097).toNat
  let yoe : Nat := (doe - doe / 1460 + doe / 36524 - doe / 146096) / 365
  let doy : Nat := doe - (365 * yoe + yoe / 4 - yoe / 100)
  let mp : Nat := (5 * doy + 2) / 153
  let d : Nat := doy - (153 * mp + 2) / 5 + 1
  let m : Nat := if mp < 10 then mp + 3 else mp - 9
  (((yoe : Int) + era * 400) + (if m ≤ 2 then 1 else 0), m, d)

/-- Left pad a natural number with zeros to the given width. -/
def padNum (w n : Nat) : String :=
  let s := toString n
  String.mk (List.replicate (w - s.length) '0') ++ s

/-- Year field of Date.prototype.toISOString (expanded form outside 0..9999). -/
def isoYear (y : Int) : String :=
  if y < 0 then "-" ++ padNum 6 (-y).toNat
  else if y > 9999 then "+" ++ padNum 6 y.toNat
  else padNum 4 y.toNat

/-- Rendering of a millisecond UTC time value in the zero padded format of
    Date.prototype.toISOString. -/
def isoOfMillis (ms : Int) : String :=
  let days := Int.fdiv ms 86400000
  let rem : Nat := (ms - days * 86400000).toNat
  let c := civilFromDays days
  let h := rem / 3600000
  let mi := rem % 3600000 / 60000
  let s := rem % 60000 / 1000
  let msf := rem % 1000
  isoYear c.1 ++ "-" ++ padNum 2 c.2.1 ++ "-" ++ padNum 2 c.2.2 ++ "T" ++
    padNum 2 h ++ ":" ++ padNum 2 mi ++ ":" ++ padNum 2 s ++ "." ++
    padNum 3 msf ++ "Z"

/-- Bounds check of the ES date time string format: an out of range field
    makes the constructed Date invalid (NaN time value); hour 24 is accepted
    when minutes and seconds are zero. -/
def validFields (y : Int) (mo d h mi s : Nat) : Bool :=
  decide (1 ≤ mo ∧ mo ≤ 12 ∧ 1 ≤ d ∧ d ≤ daysInMonth y mo ∧
    (h ≤ 23 ∨ (h = 24 ∧ mi = 0 ∧ s = 0)) ∧ mi ≤ 59 ∧ s ≤ 59)

/-- Millisecond value of the given fields read as UTC, or none when a field is
    out of range (an invalid Date). -/
def fieldsMsUTC (y : Int) (mo d h mi s : Nat) : Option Int :=
  if validFields y mo d h mi s then
    some (daysFromCivil y mo d * 86400000 + (((h * 3600 + mi * 60 + s) * 1000 : Nat) : Int))
  else none

/-- Numeric value of a nonempty all digit character list, none otherwise. -/
def parseDigits (l : List Char) : Option Nat :=
  if !l.isEmpty && l.all Char.isDigit then
    some (l.foldl (fun n c => n * 10 + (c.toNat - 48)) 0)
  else none

/-- Model of String.prototype.slice on the character list of a string
    (nonnegative indices only, which is all the source uses). -/
def jsSlice (s : String) (a b : Nat) : List Char :=
  ((s.toList).drop a).take (b - a)

/-- Model of building a Date from an ISO date time string with Z suffix whose
    fields are the given digit strings: the time value reads the fields as
    UTC, and is NaN (none) when a field is not numeric or out of range. -/
def jsDateUTC (ys ms ds hs mis ss : List Char) : Option Int := do
  let y ← parseDigits ys
  let mo ← parseDigits ms
  let d ← parseDigits ds
  let h ← parseDigits hs
  let mi ← parseDigits mis
  let s ← parseDigits ss
  fieldsMsUTC (y : Int) mo d h mi s

/-- Model of building a Date from an ISO date time string without zone
    suffix: the fields are read in the local zone, so the time value is the
    UTC reading shifted by the fixed local offset tz (minutes, sign convention
    of getTimezoneOffset). -/
def jsDateLocal (tz : Int) (ys ms ds hs mis ss : List Char) : Option Int :=
  (jsDateUTC ys ms ds hs mis ss).map (fun w => w + tz * 60000)

/-- Field slices taken by isoFromICSUTC and toUTCStringFromLocalDateTime from
    a 15 or 16 character token, combined into a UTC millisecond reading. -/
def dtFieldsMsUTC (icsDT : String) : Option Int :=
  jsDateUTC (jsSlice icsDT 0 4) (jsSlice icsDT 4 6) (jsSlice icsDT 6 8)
    (jsSlice icsDT 9 11) (jsSlice icsDT 11 13) (jsSlice icsDT 13 15)

/-- Model of isoFromICSUTC: build a Z suffixed Date from the token slices and
    render it with toISOString; toISOString on an invalid Date throws a
    RangeError, modelled as Except.error. -/
def isoFromICSUTC (icsDT : String) : Except Unit String :=
  match dtFieldsMsUTC icsDT with
  | some ms => .ok (isoOfMillis ms)
  | none => .error ()

/-- Millisecond value computed by toUTCStringFromLocalDateTime before
    rendering: the token fields are read as local time and the local offset is
    then subtracted (dt.getTime() - dt.getTimezoneOffset() * 60000). -/
def localDTMs (tz : Int) (icsLocal : String) : Option Int :=
  (jsDateLocal tz (jsSlice icsLocal 0 4) (jsSlice icsLocal 4 6)
      (jsSlice icsLocal 6 8) (jsSlice icsLocal 9 11) (jsSlice icsLocal 11 13)
      (jsSlice icsLocal 13 15)).map (fun t => t - tz * 60000)

/-- Model of toUTCStringFromLocalDateTime. -/
def toUTCStringFromLocalDateTime (tz : Int) (icsLocal : String) :
    Except Unit String :=
  match localDTMs tz icsLocal with
  | some ms => .ok (isoOfMillis ms)
  | none => .error ()

/-- Millisecond value computed by toUTCStringFromLocalParts before
    rendering. -/
def localPartsMs (tz : Int) (yyyymmdd hhmmss : String) : Option Int :=
  (jsDateLocal tz (jsSlice yyyymmdd 0 4) (jsSlice yyyymmdd 4 6)
      (jsSlice yyyymmdd 6 8) (jsSlice hhmmss 0 2) (jsSlice hhmmss 2 4)
      (jsSlice hhmmss 4 6)).map (fun t => t - tz * 60000)

/-- Model of toUTCStringFromLocalParts. -/
def toUTCStringFromLocalParts (tz : Int) (yyyymmdd hhmmss : String) :
    Except Unit String :=
  match localPartsMs tz yyyymmdd hhmmss with
  | some ms => .ok (isoOfMillis ms)
  | none => .error ()

/-- Test of the anchored regex for eight digits (bare date). -/
def dateOnly (s : String) : Bool :=
  let l := s.toList
  l.length == 8 && l.all Char.isDigit

/-- Test of the anchored regex for a UTC date time token YYYYMMDDThhmmssZ. -/
def dateTimeZ (s : String) : Bool :=
  let l := s.toList
  l.length == 16 && (l.take 8).all Char.isDigit && l[8]? == some 'T' &&
    ((l.drop 9).take 6).all Char.isDigit && l[15]? == some 'Z'

/-- Test of the anchored regex for a floating local token YYYYMMDDThhmmss. -/
def dateTimeLocal (s : String) : Bool :=
  let l := s.toList
  l.length == 15 && (l.take 8).all Char.isDigit && l[8]? == some 'T' &&
    ((l.drop 9).take 6).all Char.isDigit

/-- Result record of normalizeDates; the source field named end is called
    stop here because end is a reserved word in Lean. -/
structure NormOut where
  start : String
  stop : String
  isAllDay : Bool
deriving Repr, DecidableEq

/-- Model of normalizeDates.  The JS truthiness test on the tokens is subsumed
    by the shape tests, which are false on the empty string (and the branch on
    a truthy dtend that matches no shape coincides with the untruthy branch in
    every arm, as in the source).  The parse instant now is passed as a
    millisecond parameter (source: new Date().toISOString()).  The end default
    of the bare date branch adds 24h to the millisecond value of start; the
    source reparses the start ISO string, which is the identity on the
    millisecond value.  Except.error models a RangeError thrown by toISOString
    on an invalid Date. -/
def normalizeDates (tz nowMs : Int) (dtstart dtend : Option String) :
    Except Unit NormOut :=
  match dtstart with
  | some ds =>
    if dateOnly ds then
      match localPartsMs tz ds "000000" with
      | none => .error ()
      | some sMs =>
        match dtend with
        | some de =>
          if dateOnly de then
            match localPartsMs tz de "000000" with
            | none => .error ()
            | some eMs => .ok ⟨isoOfMillis sMs, isoOfMillis eMs, true⟩
          else .ok ⟨isoOfMillis sMs, isoOfMillis (sMs + 86400000), true⟩
        | none => .ok ⟨isoOfMillis sMs, isoOfMillis (sMs + 86400000), true⟩
    else if dateTimeZ ds then
      match isoFromICSUTC ds with
      | .error e => .error e
      | .ok st =>
        match dtend with
        | some de =>
          if dateTimeZ de then
            match isoFromICSUTC de with
            | .error e => .error e
            | .ok en => .ok ⟨st, en, false⟩
          else if dateTimeLocal de then
            match toUTCStringFromLocalDateTime tz de with
            | .error e => .error e
            | .ok en => .ok ⟨st, en, false⟩
          else
            match isoFromICSUTC ds with
            | .error e => .error e
            | .ok en => .ok ⟨st, en, false⟩
        | none => .ok ⟨st, st, false⟩
    else if dateTimeLocal ds then
      match toUTCStringFromLocalDateTime tz ds with
      | .error e => .error e
      | .ok st =>
        match dtend with
        | some de =>
          if dateTimeLocal de then
            match toUTCStringFromLocalDateTime tz de with
            | .error e => .error e
            | .ok en => .ok ⟨st, en, false⟩
          else if dateTimeZ de then
            match isoFromICSUTC de with
            | .error e => .error e
            | .ok en => .ok ⟨st, en, false⟩
          else .ok ⟨st, st, false⟩
        | none => .ok ⟨st, st, false⟩
    else .ok ⟨isoOfMillis nowMs, isoOfMillis nowMs, false⟩
  | none => .ok ⟨isoOfMillis nowMs, isoOfMillis nowMs, false⟩

/-- Reading of a bare date token directly as a UTC midnight millisecond
    value. -/
def bareMsUTC (ds : String) : Option Int :=
  jsDateUTC (jsSlice ds 0 4) (jsSlice ds 4 6) (jsSlice ds 6 8)
    (jsSlice "000000" 0 2) (jsSlice "000000" 2 4) (jsSlice "000000" 4 6)

/- ===================== ICS parsing ===================== -/

/-- Model of the line unfolding replace: every occurrence of an optional CR,
    an LF and a single following space or tab is removed, scanning left to
    right without rescanning removed text, as String.prototype.replace
    does. -/
def unfoldICS : List Char → List Char
  | '\r' :: '\n' :: c :: rest =>
    if c = ' ' ∨ c = '\t' then unfoldICS rest
    else '\r' :: unfoldICS ('\n' :: c :: rest)
  | '\n' :: c :: rest =>
    if c = ' ' ∨ c = '\t' then unfoldICS rest
    else '\n' :: unfoldICS (c :: rest)
  | c :: rest => c :: unfoldICS rest
  | [] => []

/-- Model of split on the regex of an optional CR followed by LF; a lone CR is
    not a separator. -/
def splitLinesAux (acc : List Char) : List Char → List (List Char)
  | [] => [acc.reverse]
  | '\r' :: '\n' :: rest => acc.reverse :: splitLinesAux [] rest
  | '\n' :: rest => acc.reverse :: splitLinesAux [] rest
  | c :: rest => splitLinesAux (c :: acc) rest

/-- Normalized event record emitted by parseICS; the source field named end is
    called stop. -/
structure ICSEvent where
  start : String
  stop : String
  isAllDay : Bool
  summary : String
  location : String
  url : String
  uid : String
  calendar : String
deriving Repr, DecidableEq

/-- Lookup in the current field bag; the bag is built by prepending, so the
    first hit is the latest write, matching overwrite semantics of the dynamic
    object in the source. -/
def lookupField (m : List (String × String)) (k : String) : Option String :=
  (m.find? (fun p => p.1 == k)).map (·.2)

/-- Sequential scan of the logical lines with the current event state: nil
    outside a block, a field bag inside.  A line inside a block is split at
    its first colon, the name is stripped of any semicolon suffix and upper
    cased; lines without a colon and lines outside blocks are ignored.  On
    END:VEVENT the block is normalized and emitted; a thrown RangeError from
    normalization propagates, as in the source. -/
def parseICSLines (tz nowMs : Int) :
    List (List Char) → Option (List (String × String)) →
      Except Unit (List ICSEvent)
  | [], _ => .ok []
  | l :: rest, cur =>
    if l = "BEGIN:VEVENT".toList then parseICSLines tz nowMs rest (some [])
    else if l = "END:VEVENT".toList then
      match cur with
      | some m => do
        let n ← normalizeDates tz nowMs (lookupField m "DTSTART")
          (lookupField m "DTEND")
        let evs ← parseICSLines tz nowMs rest none
        pure ({ start := n.start, stop := n.stop, isAllDay := n.isAllDay,
                summary := (lookupField m "SUMMARY").getD "",
                location := (lookupField m "LOCATION").getD "",
                url := (lookupField m "URL").getD "",
                uid := (lookupField m "UID").getD "",
                calendar := "Laget.se" } :: evs)
      | none => parseICSLines tz nowMs rest none
    else
      match cur with
      | none => parseICSLines tz nowMs rest cur
      | some m =>
        if ':' ∈ l then
          let left := l.takeWhile (· ≠ ':')
          let value := (l.dropWhile (· ≠ ':')).drop 1
          let key := (left.takeWhile (· ≠ ';')).map Char.toUpper
          parseICSLines tz nowMs rest (some ((String.mk key, String.mk value) :: m))
        else parseICSLines tz nowMs rest cur

/-- Model of parseICS: unfold soft wrapped lines, split into logical lines and
    scan the VEVENT blocks. -/
def parseICS (tz nowMs : Int) (ics : String) : Except Unit (List ICSEvent) :=
  parseICSLines tz nowMs (splitLinesAux [] (unfoldICS ics.toList)) none

/- ===================== JS numbers and query parameters ===================== -/

/-- Whitespace set used by JS for trimming and the regex class backslash-s
    (ASCII part; the feeds contain no exotic unicode spaces). -/
def jsWS (c : Char) : Bool :=
  c == ' ' || c == '\t' || c == '\n' || c == '\r' ||
    c == Char.ofNat 11 || c == Char.ofNat 12

/-- Model of String.prototype.trim. -/
def trimList (l : List Char) : List Char :=
  ((l.dropWhile jsWS).reverse.dropWhile jsWS).reverse

/-- Numeric value of a digit list (0 for the empty list). -/
def natVal (l : List Char) : Nat :=
  l.foldl (fun n c => n * 10 + (c.toNat - 48)) 0

/-- Optionally signed nonempty digit run making up a whole remaining list. -/
def parseSignedDigits : List Char → Option Int
  | '+' :: r => if !r.isEmpty && r.all Char.isDigit then some (natVal r) else none
  | '-' :: r => if !r.isEmpty && r.all Char.isDigit then some (-(natVal r : Int)) else none
  | r => if !r.isEmpty && r.all Char.isDigit then some (natVal r) else none

/-- Exponent suffix of a JS decimal literal; an empty tail means exponent
    zero. -/
def parseExpTail : List Char → Option Int
  | [] => some 0
  | 'e' :: r => parseSignedDigits r
  | 'E' :: r => parseSignedDigits r
  | _ => none

/-- Integer power of ten as a rational. -/
def qpow10 (e : Int) : ℚ :=
  if 0 ≤ e then ((10 : ℚ) ^ e.toNat) else 1 / ((10 : ℚ) ^ (-e).toNat)

/-- Unsigned JS decimal literal: digits, digits dot digits, dot digits, each
    with an optional exponent; the whole list must be consumed. -/
def parseUnsignedDec (l : List Char) : Option ℚ :=
  let ip := l.takeWhile Char.isDigit
  let r1 := l.dropWhile Char.isDigit
  match r1 with
  | '.' :: r2 =>
    let fp := r2.takeWhile Char.isDigit
    let r3 := r2.dropWhile Char.isDigit
    if ip.isEmpty && fp.isEmpty then none
    else (parseExpTail r3).map (fun e =>
      ((natVal ip : ℚ) + (natVal fp : ℚ) / ((10 : ℚ) ^ fp.length)) * qpow10 e)
  | _ =>
    if ip.isEmpty then none
    else (parseExpTail r1).map (fun e => (natVal ip : ℚ) * qpow10 e)

/-- Model of ToNumber on a query string value: trimmed, empty means 0,
    decimal literals with optional sign take their value.  All other forms
    (including Infinity and the hex literals, absent from this API surface)
    are mapped to none, which the int helper treats exactly as the source
    treats a non finite number. -/
def jsStrToNumber (s : String) : Option ℚ :=
  match trimList s.toList with
  | [] => some 0
  | '+' :: r => parseUnsignedDec r
  | '-' :: r => (parseUnsignedDec r).map Neg.neg
  | r => parseUnsignedDec r

/-- Model of the int helper: null stays null, and a value whose Number
    conversion is not finite becomes null. -/
def int (v : Option String) : Option ℚ :=
  v.bind jsStrToNumber

/-- Model of the clamp helper: Math.max(min, Math.min(max, n)). -/
def clamp (n mn mx : ℚ) : ℚ := max mn (min mx n)

/- ===================== RSS parsing ===================== -/

/-- Case insensitive prefix test (ASCII lowering on both sides). -/
def ciPrefix (pat l : List Char) : Bool :=
  (l.take pat.length).map Char.toLower == pat.map Char.toLower

/-- JS regex word character class. -/
def wordChar (c : Char) : Bool := c.isAlphanum || c == '_'

/-- True when the list starts with a word character (a failed word
    boundary). -/
def headIsWord : List Char → Bool
  | [] => false
  | c :: _ => wordChar c

/-- Suffix of the text starting at the first case insensitive occurrence of
    the pattern followed by a word boundary, scanning left to right as the
    regex engine does. -/
def findTagOpen (pat : List Char) : List Char → Option (List Char)
  | [] => none
  | c :: rest =>
    if ciPrefix pat (c :: rest) && !headIsWord ((c :: rest).drop pat.length) then
      some (c :: rest)
    else findTagOpen pat rest

/-- First case insensitive occurrence of the pattern, returned as the text
    before it and the text after it. -/
def findCIPat (pat : List Char) : List Char → Option (List Char × List Char)
  | [] => none
  | c :: rest =>
    if ciPrefix pat (c :: rest) then some ([], (c :: rest).drop pat.length)
    else (findCIPat pat rest).map (fun p => (c :: p.1, p.2))

/-- First case sensitive occurrence of the pattern, with the text before and
    after it. -/
def findPat (pat : List Char) : List Char → Option (List Char × List Char)
  | [] => none
  | c :: rest =>
    if pat.isPrefixOf (c :: rest) then some ([], (c :: rest).drop pat.length)
    else (findPat pat rest).map (fun p => (c :: p.1, p.2))

/-- Successive non overlapping blocks of the lazy case insensitive item block
    regex: each match runs from an item open tag with word boundary to the
    first item close tag after it, and scanning resumes after the match.  A
    candidate open with no close after it ends the scan, since no later
    candidate can have one either.  The fuel argument only bounds the
    recursion and is always sufficient. -/
def itemBlocksAux (fuel : Nat) (l : List Char) : List (List Char) :=
  match fuel with
  | 0 => []
  | fuel + 1 =>
    match findTagOpen "<item".toList l with
    | none => []
    | some s =>
      match findCIPat "</item>".toList (s.drop 5) with
      | none => []
      | some (between, _) =>
        let blockLen := 5 + between.length + 7
        s.take blockLen :: itemBlocksAux fuel (s.drop blockLen)

/-- Item blocks of an RSS document. -/
def itemBlocks (l : List Char) : List (List Char) := itemBlocksAux l.length l

/-- Model of the global CDATA unwrapping replace: each CDATA opener up to the
    lazily matched first close marker is replaced by the enclosed text.  When
    an opener has no close marker anywhere after it, no further match is
    possible and the remaining text is kept verbatim.  The fuel argument only
    bounds the recursion and is always sufficient. -/
def stripCDATAAux (fuel : Nat) (l : List Char) : List Char :=
  match fuel with
  | 0 => l
  | fuel + 1 =>
    match l with
    | '<' :: '!' :: '[' :: 'C' :: 'D' :: 'A' :: 'T' :: 'A' :: '[' :: rest =>
      match findPat "]]>".toList rest with
      | some (inner, after) => inner ++ stripCDATAAux fuel after
      | none => l
    | c :: rest => c :: stripCDATAAux fuel rest
    | [] => []

/-- Model of stripCDATA. -/
def stripCDATA (l : List Char) : List Char := stripCDATAAux l.length l

/-- Tag removal pass of stripTags, the global replace of the pattern of an
    opening angle, a nonempty run of characters other than a closing angle,
    and a closing angle.  Phrased as a single left to right scan with an open
    buffer holding the characters read since an unmatched opening angle,
    which reproduces the replace semantics: a matched segment is dropped, an
    opening angle immediately followed by a closing angle survives, and an
    opening angle with no closing angle after it survives together with the
    buffered text. -/
def removeTagsAux : Option (List Char) → List Char → List Char
  | none, [] => []
  | some buf, [] => '<' :: buf.reverse
  | none, c :: rest =>
    if c = '<' then removeTagsAux (some []) rest
    else c :: removeTagsAux none rest
  | some buf, c :: rest =>
    if c = '>' then
      if buf.isEmpty then '<' :: '>' :: removeTagsAux none rest
      else removeTagsAux none rest
    else removeTagsAux (some (c :: buf)) rest

/-- Tag removal pass on a character list. -/
def removeTags (l : List Char) : List Char := removeTagsAux none l

/-- Replace of CRLF, LF and CR by single spaces. -/
def newlinesToSpace : List Char → List Char
  | '\r' :: '\n' :: rest => ' ' :: newlinesToSpace rest
  | '\n' :: rest => ' ' :: newlinesToSpace rest
  | '\r' :: rest => ' ' :: newlinesToSpace rest
  | c :: rest => c :: newlinesToSpace rest
  | [] => []

/-- Collapse of every whitespace run to a single space; the flag records
    whether the previous character belonged to a run already collapsed. -/
def collapseWS : Bool → List Char → List Char
  | _, [] => []
  | prev, c :: rest =>
    if jsWS c then
      if prev then collapseWS true rest else ' ' :: collapseWS true rest
    else c :: collapseWS false rest

/-- Model of stripTags: remove tags, replace newlines by spaces, collapse
    whitespace runs and trim. -/
def stripTags (l : List Char) : List Char :=
  trimList (collapseWS false (newlinesToSpace (removeTags l)))

/-- Model of decodeHTML: global replace of exactly the six entities; every
    other entity passes through because the scan advances one character on a
    failed match. -/
def decodeHTMLList : List Char → List Char
  | '&' :: 'a' :: 'm' :: 'p' :: ';' :: rest => '&' :: decodeHTMLList rest
  | '&' :: 'l' :: 't' :: ';' :: rest => '<' :: decodeHTMLList rest
  | '&' :: 'g' :: 't' :: ';' :: rest => '>' :: decodeHTMLList rest
  | '&' :: 'q' :: 'u' :: 'o' :: 't' :: ';' :: rest => '"' :: decodeHTMLList rest
  | '&' :: '#' :: '3' :: '9' :: ';' :: rest => Char.ofNat 39 :: decodeHTMLList rest
  | '&' :: 'a' :: 'p' :: 'o' :: 's' :: ';' :: rest => Char.ofNat 39 :: decodeHTMLList rest
  | c :: rest => c :: decodeHTMLList rest
  | [] => []

/-- Model of decodeHTML on strings. -/
def decodeHTML (s : String) : String := String.mk (decodeHTMLList s.toList)

/-- Model of pickTag before the CDATA unwrap and trim: first case insensitive
    opening tag with word boundary, its attribute run up to the first closing
    angle, then the lazily captured content up to the first matching close
    tag.  When the first candidate fails because no closing angle or no close
    tag follows, every later candidate fails for the same reason, so the
    regex returns no match at all. -/
def pickTagRaw (tag : List Char) (block : List Char) : Option (List Char) :=
  match findTagOpen ('<' :: tag) block with
  | none => none
  | some s =>
    match (s.drop (1 + tag.length)).dropWhile (· ≠ '>') with
    | [] => none
    | _ :: rest1 =>
      match findCIPat ('<' :: '/' :: (tag ++ ['>'])) rest1 with
      | none => none
      | some (content, _) => some content

/-- Model of pickTag: raw capture, CDATA unwrap, trim. -/
def pickTagL (tag : List Char) (block : List Char) : Option (List Char) :=
  (pickTagRaw tag block).map (fun content => trimList (stripCDATA content))

/-- Search of an attribute assignment with the given quote character inside
    an attribute run: the key, an equals sign and the quote, then a nonempty
    run up to the closing quote.  A failed candidate advances one character,
    as the regex engine does. -/
def findAttrVal (q : Char) (key : List Char) : List Char → Option (List Char)
  | [] => none
  | c :: rest =>
    if ciPrefix (key ++ ['=', q]) (c :: rest) then
      let v := ((c :: rest).drop (key.length + 2)).takeWhile (· ≠ q)
      let tail := ((c :: rest).drop (key.length + 2)).dropWhile (· ≠ q)
      if !v.isEmpty && !tail.isEmpty then some v else findAttrVal q key rest
    else findAttrVal q key rest

/-- Model of pickAttr: attribute run of the first matching opening tag
    (everything up to the first closing angle, which the greedy character
    class keeps including a trailing slash), then the double quoted and the
    single quoted attribute regex in that order. -/
def pickAttr (tag attr : List Char) (block : List Char) : Option String :=
  match findTagOpen ('<' :: tag) block with
  | none => none
  | some s =>
    if ((s.drop (1 + tag.length)).dropWhile (· ≠ '>')).isEmpty then none
    else
      let attrs := (s.drop (1 + tag.length)).takeWhile (· ≠ '>')
      match findAttrVal '"' attr attrs with
      | some v => some (String.mk v)
      | none => (findAttrVal (Char.ofNat 39) attr attrs).map String.mk

/-- Model of pickAll: repeated pickTag extraction scanning forward from the
    end of each match, as the global regex does.  The fuel argument only
    bounds the recursion and is always sufficient. -/
def pickAllAux (tag : List Char) (fuel : Nat) (l : List Char) : List (List Char) :=
  match fuel with
  | 0 => []
  | fuel + 1 =>
    match findTagOpen ('<' :: tag) l with
    | none => []
    | some s =>
      match (s.drop (1 + tag.length)).dropWhile (· ≠ '>') with
      | [] => []
      | _ :: rest1 =>
        match findCIPat ('<' :: '/' :: (tag ++ ['>'])) rest1 with
        | none => []
        | some (content, rest2) =>
          trimList (stripCDATA content) :: pickAllAux tag fuel rest2

/-- News item record extracted by parseRSS. -/
structure RSSItem where
  title : String
  link : String
  guid : String
  pubDate : String
  description : String
  enclosure : Option String
  categories : List String
deriving Repr, DecidableEq

/-- Extraction of one RSS item from one item block, field by field as in the
    source. -/
def rssItemOfBlock (b : List Char) : RSSItem :=
  let g (t : String) : List Char := (pickTagL t.toList b).getD []
  { title := String.mk (decodeHTMLList (stripTags (g "title"))),
    link := String.mk (trimList (g "link")),
    guid := String.mk (trimList (g "guid")),
    pubDate := String.mk (trimList (g "pubDate")),
    description := String.mk (decodeHTMLList (stripTags (g "description"))),
    enclosure := pickAttr "enclosure".toList "url".toList b,
    categories := (pickAllAux "category".toList b.length b).map
      (fun c => String.mk (decodeHTMLList (stripTags c))) }

/-- Model of Date.parse restricted to the ES defined date time string format
    with either no zone suffix (read in the local zone, offset tz) or a Z
    suffix.  Every other string, including the legacy forms whose parse is
    implementation defined (such as the string 0 produced by the falsy
    pubDate coercion), is modelled as NaN (none). -/
def parseTimeAndZone (t : List Char) : Option (Nat × Nat × Nat × Nat × Bool) :=
  if t.length ≥ 5 && t[2]? == some ':' then do
    let h ← parseDigits (t.take 2)
    let mi ← parseDigits ((t.drop 3).take 2)
    match t.drop 5 with
    | [] => some (h, mi, 0, 0, false)
    | ['Z'] => some (h, mi, 0, 0, true)
    | ':' :: r2 =>
      if r2.length ≥ 2 then do
        let s ← parseDigits (r2.take 2)
        match r2.drop 2 with
        | [] => some (h, mi, s, 0, false)
        | ['Z'] => some (h, mi, s, 0, true)
        | '.' :: r4 =>
          if r4.length == 3 then do
            let f ← parseDigits r4
            some (h, mi, s, f, false)
          else if r4.length == 4 && r4[3]? == some 'Z' then do
            let f ← parseDigits (r4.take 3)
            some (h, mi, s, f, true)
          else none
        | _ => none
      else none
    | _ => none
  else none

/-- Time value of Date.parse under the fixed local offset tz (see
    parseTimeAndZone for the modelled format subset). -/
def jsDateParse (tz : Int) (s : String) : Option Int :=
  let l := s.toList
  if l.length ≥ 10 && l[4]? == some '-' && l[7]? == some '-' then do
    let y ← parseDigits (l.take 4)
    let mo ← parseDigits ((l.drop 5).take 2)
    let d ← parseDigits ((l.drop 8).take 2)
    match l.drop 10 with
    | [] => fieldsMsUTC y mo d 0 0 0
    | 'T' :: t => do
      let (h, mi, s2, f, isU) ← parseTimeAndZone t
      let w ← fieldsMsUTC y mo d h mi s2
      some (w + f + (if isU then 0 else tz * 60000))
    | _ => none
  else none

/-- Sort key of an item: Date.parse of its pubDate, with the falsy coercion
    of an empty pubDate to the number 0 and then to the string 0. -/
def pubKey (tz : Int) (it : RSSItem) : Option Int :=
  jsDateParse tz (if it.pubDate = "" then "0" else it.pubDate)

/-- Comparator of parseRSS: parse of b minus parse of a (descending); none
    models a NaN comparator value. -/
def cmpItems (tz : Int) (a b : RSSItem) : Option ℚ :=
  match pubKey tz b, pubKey tz a with
  | some kb, some ka => some ((kb : ℚ) - (ka : ℚ))
  | _, _ => none

/-- Value of a comparator result under the ES SortCompare rule: a NaN result
    counts as zero. -/
def jsCmpNum (c : Option ℚ) : ℚ := c.getD 0

/-- One step of a stable insertion from the right: the accumulator holds the
    already placed elements in reversed order, and the new element moves left
    past exactly those elements whose comparison against it is positive.
    This matches the stable binary insertion the V8 array sort performs on
    runs of the sizes at hand, with ties (including NaN results) left in
    place. -/
def insRevBy (cmp : α → α → Option ℚ) (x : α) : List α → List α
  | [] => [x]
  | y :: t => if 0 < jsCmpNum (cmp y x) then y :: insRevBy cmp x t else x :: y :: t

/-- Model of Array.prototype.sort with a comparator: a stable insertion sort.
    For a consistent comparator this is the unique stable sorted order the ES
    specification requires; for an inconsistent comparator the specification
    leaves the order implementation defined and this reproduces the actual
    stable insertion behavior. -/
def jsSortBy (cmp : α → α → Option ℚ) (l : List α) : List α :=
  (l.foldl (fun acc x => insRevBy cmp x acc) []).reverse

/-- Item list of an RSS document before sorting. -/
def rssItems (xml : String) : List RSSItem :=
  (itemBlocks xml.toList).map rssItemOfBlock

/-- Model of parseRSS: extract the item blocks, build the items, sort with
    the pubDate comparator. -/
def parseRSS (tz : Int) (xml : String) : List RSSItem :=
  jsSortBy (cmpItems tz) (rssItems xml)

/- ===================== JSON payload cores ===================== -/

/-- Model of new Date on the ISO strings this pipeline itself produces
    (toISOString output with a four digit year); every event start value
    flows out of normalizeDates, so this is the only shape the filter and the
    sort ever parse back. -/
def isoParseMs (s : String) : Option Int :=
  let l := s.toList
  if l.length == 24 && l[4]? == some '-' && l[7]? == some '-' &&
      l[10]? == some 'T' && l[13]? == some ':' && l[16]? == some ':' &&
      l[19]? == some '.' && l[23]? == some 'Z' then do
    let y ← parseDigits (l.take 4)
    let mo ← parseDigits ((l.drop 5).take 2)
    let d ← parseDigits ((l.drop 8).take 2)
    let h ← parseDigits ((l.drop 11).take 2)
    let mi ← parseDigits ((l.drop 14).take 2)
    let s2 ← parseDigits ((l.drop 17).take 2)
    let f ← parseDigits ((l.drop 20).take 3)
    (fieldsMsUTC y mo d h mi s2).map (· + f)
  else none

/-- Model of startOfDayUTC: midnight UTC of the current UTC calendar day. -/
def startOfDayUTC (nowMs : Int) : Int :=
  Int.fdiv nowMs 86400000 * 86400000

/-- Comparator of the ascending event sort: Date of a minus Date of b. -/
def cmpEventStarts (a b : ICSEvent) : Option ℚ :=
  match isoParseMs a.start, isoParseMs b.start with
  | some x, some y => some ((x : ℚ) - (y : ℚ))
  | _, _ => none

def DEFAULT_DAYS_AHEAD : ℚ := 365

def MAX_LIMIT : ℚ := 500

/-- Events JSON payload: the count and the returned array. -/
structure EventsPayload where
  count : ℚ
  events : List ICSEvent
deriving Repr, DecidableEq

/-- Filtering, sorting, limiting and count computation of the events JSON
    operation (source lines 54 to 70).  The horizon is the now instant plus
    days times 86400000 ms, truncated as the Date constructor truncates a
    fractional time value; comparisons against an unparseable start are
    false.  The slice bound truncates the possibly fractional clamped limit,
    while the reported count uses the untruncated value. -/
def upcomingEvents (nowMs : Int) (events : List ICSEvent)
    (daysQ : Option String) : List ICSEvent :=
  let days := clamp ((int daysQ).getD DEFAULT_DAYS_AHEAD) 1 3650
  let untilMs : Int := Rat.floor ((nowMs : ℚ) + days * 86400000)
  let sod := startOfDayUTC nowMs
  jsSortBy cmpEventStarts (events.filter (fun ev =>
    match isoParseMs ev.start with
    | some t => decide (sod ≤ t ∧ t ≤ untilMs)
    | none => false))

def eventsPayloadCore (nowMs : Int) (events : List ICSEvent)
    (daysQ limitQ : Option String) : EventsPayload :=
  let upcoming := upcomingEvents nowMs events daysQ
  let limit := clamp ((int limitQ).getD (upcoming.length : ℚ)) 1 MAX_LIMIT
  { count := min limit (upcoming.length : ℚ),
    events := upcoming.take (Rat.floor limit).toNat }

/-- News JSON payload: the count and the returned array. -/
structure NewsPayload where
  count : ℚ
  items : List RSSItem
deriving Repr, DecidableEq

/-- Limiting and count computation of the news JSON operation (source lines
    116 to 121). -/
def newsPayloadCore (items : List RSSItem) (limitQ : Option String) :
    NewsPayload :=
  let limit := clamp ((int limitQ).getD (items.length : ℚ)) 1 MAX_LIMIT
  { count := min limit (items.length : ℚ),
    items := items.take (Rat.floor limit).toNat }

/- ===================== Dispatcher and handlers ===================== -/

/-- Configuration of the worker (Worker environment variables). -/
structure Env where
  icalUrl : Option String
  newsRssUrl : Option String
  corsOrigin : Option String
deriving Repr, DecidableEq

/-- Body of a response; the JSON serialization of the success payloads is
    kept symbolic since no claim inspects it, while error bodies are the
    exact strings of the source. -/
inductive BodyVal where
  | text (s : String)
  | json (s : String)
  | eventsBody (p : EventsPayload)
  | newsBody (p : NewsPayload)
  | calendarBody (s : String)
  | rssBody (s : String)
deriving Repr, DecidableEq

/-- Response modelled as status and body; headers are not inspected by any
    claim. -/
structure WResponse where
  status : Nat
  body : BodyVal
deriving Repr, DecidableEq

/-- External collaborators of one request: the edge cache lookup result for
    this request, the upstream fetch outcome and body, and whether the edge
    cache put rejects. -/
structure World where
  cache : Option WResponse
  upstreamOk : Bool
  upstreamBody : String
  putFails : Bool
deriving Repr, DecidableEq

/-- Observable side effects of a handler, in execution order. -/
inductive Eff where
  | cacheGet
  | fetchUpstream (url : String)
  | cachePut
deriving Repr, DecidableEq

/-- JSON.stringify of the error object; the messages serialized here contain
    no characters that stringify escapes. -/
def jsonErrBody (msg : String) : String :=
  "\x7b\"error\":\"" ++ msg ++ "\"\x7d"

/-- Model of badRequest: status 400 with the JSON error body. -/
def badRequest (msg : String) : WResponse :=
  ⟨400, .json (jsonErrBody msg)⟩

/-- Model of eventsJSON (source lines 42 to 76): env check, cache probe,
    upstream fetch, parse, payload build, then an awaited cache put before
    the response is returned.  The effect list records execution order; a
    rejecting put or a throwing parseICS propagates as Except.error, losing
    the built response, exactly as an awaited rejected promise does. -/
def eventsJSON (tz nowMs : Int) (env : Env) (w : World)
    (daysQ limitQ : Option String) : List Eff × Except Unit WResponse :=
  match env.icalUrl with
  | none => ([], .ok (badRequest "Missing ICAL_URL env"))
  | some u =>
    match w.cache with
    | some r => ([.cacheGet], .ok r)
    | none =>
      if !w.upstreamOk then
        ([.cacheGet, .fetchUpstream u], .ok ⟨502, .text "Failed to fetch ICS"⟩)
      else
        match parseICS tz nowMs w.upstreamBody with
        | .error e => ([.cacheGet, .fetchUpstream u], .error e)
        | .ok evs =>
          ([.cacheGet, .fetchUpstream u, .cachePut],
            if w.putFails then .error ()
            else .ok ⟨200, .eventsBody (eventsPayloadCore nowMs evs daysQ limitQ)⟩)

/-- Model of rawICS (source lines 78 to 97). -/
def rawICS (env : Env) (w : World) : List Eff × Except Unit WResponse :=
  match env.icalUrl with
  | none => ([], .ok (badRequest "Missing ICAL_URL env"))
  | some u =>
    match w.cache with
    | some r => ([.cacheGet], .ok r)
    | none =>
      if !w.upstreamOk then
        ([.cacheGet, .fetchUpstream u], .ok ⟨502, .text "Failed to fetch ICS"⟩)
      else
        ([.cacheGet, .fetchUpstream u, .cachePut],
          if w.putFails then .error ()
          else .ok ⟨200, .calendarBody w.upstreamBody⟩)

/-- Model of newsJSON (source lines 101 to 127). -/
def newsJSON (tz : Int) (env : Env) (w : World) (limitQ : Option String) :
    List Eff × Except Unit WResponse :=
  match env.newsRssUrl with
  | none => ([], .ok (badRequest "Missing NEWS_RSS_URL env"))
  | some u =>
    match w.cache with
    | some r => ([.cacheGet], .ok r)
    | none =>
      if !w.upstreamOk then
        ([.cacheGet, .fetchUpstream u], .ok ⟨502, .text "Failed to fetch RSS"⟩)
      else
        ([.cacheGet, .fetchUpstream u, .cachePut],
          if w.putFails then .error ()
          else .ok ⟨200, .newsBody (newsPayloadCore (parseRSS tz w.upstreamBody) limitQ)⟩)

/-- Model of rawRSS (source lines 129 to 151). -/
def rawRSS (env : Env) (w : World) : List Eff × Except Unit WResponse :=
  match env.newsRssUrl with
  | none => ([], .ok (badRequest "Missing NEWS_RSS_URL env"))
  | some u =>
    match w.cache with
    | some r => ([.cacheGet], .ok r)
    | none =>
      if !w.upstreamOk then
        ([.cacheGet, .fetchUpstream u], .ok ⟨502, .text "Failed to fetch RSS"⟩)
      else
        ([.cacheGet, .fetchUpstream u, .cachePut],
          if w.putFails then .error ()
          else .ok ⟨200, .rssBody w.upstreamBody⟩)

/- ===================== Routing ===================== -/

/-- Dispatch targets of the fetch entry point. -/
inductive RouteTarget where
  | health
  | eventsRaw
  | newsRaw
  | events
  | news
  | notFound
deriving Repr, DecidableEq

/-- Model of the replace that removes the trailing run of slashes from the
    pathname. -/
def stripTrailingSlashes (p : String) : String :=
  String.mk (((p.toList.reverse).dropWhile (· = '/')).reverse)

/-- Model of String.prototype.endsWith. -/
def endsWith (s suf : String) : Bool :=
  suf.toList.isSuffixOf s.toList

/-- Model of the routing chain of the fetch entry point (source lines 19 to
    37): strip trailing slashes, health check on the exact string slash, then
    the four suffix tests in source order, else 404. -/
def route (pathname : String) : RouteTarget :=
  let path := stripTrailingSlashes pathname
  if path = "/" then .health
  else if endsWith path "/api/events/raw" then .eventsRaw
  else if endsWith path "/api/news/raw" then .newsRaw
  else if endsWith path "/api/events" then .events
  else if endsWith path "/api/news" then .news
  else .notFound

/- ===================== Auxiliary notions for the claims ===================== -/

/-- Head condition of the tag detector: the character is an opening angle
    followed by a nonempty run of characters other than a closing angle and
    then a closing angle. -/
def tagHeadCond (c : Char) (l : List Char) : Bool :=
  c == '<' && !(l.takeWhile (· ≠ '>')).isEmpty && !(l.dropWhile (· ≠ '>')).isEmpty

/-- Detector of a tag shaped substring, the pattern the stripTags regex
    removes: an opening angle, a nonempty run of characters other than a
    closing angle, and a closing angle. -/
def hasTag : List Char → Bool
  | [] => false
  | c :: rest => tagHeadCond c rest || hasTag rest

/-- Tag detector on strings. -/
def hasTagS (s : String) : Bool := hasTag s.toList

/-- Pairwise descending order by parsed pubDate, stated on the items whose
    key parses. -/
def descBy (tz : Int) (a b : RSSItem) : Prop :=
  ∀ ka kb, pubKey tz a = some ka → pubKey tz b = some kb → kb ≤ ka

/-- Concrete RSS input with items dated 2020, unparseable, 2025 in that
    order. -/
def xmlC3 : String :=
  "<item><title>A</title><pubDate>2020-01-01T00:00:00Z</pubDate></item>" ++
    "<item><title>B</title><pubDate>whenever</pubDate></item>" ++
    "<item><title>C</title><pubDate>2025-01-01T00:00:00Z</pubDate></item>"

/-- Concrete RSS input whose title holds entity encoded markup and whose
    description holds an unbalanced CDATA close marker. -/
def xmlC5 : String :=
  "<item><title>&lt;b&gt;Goal&lt;/b&gt;</title>" ++
    "<description><![CDATA[x]]>]]></description></item>"

/-- Event with a given start, as an input to the filtering core. -/
def mkEv (s : String) : ICSEvent :=
  ⟨s, s, false, "", "", "", "", "Laget.se"⟩

/-- Modelled from the claim wording, not from the source: the UTC instant
    obtained by interpreting the numeric fields of a floating token in the
    execution environment local zone, i.e. the fields reading shifted by the
    local to UTC offset.  Used only to compare the claimed conduct with the
    conduct of the code. -/
def claimedLocalInterpretation (tz : Int) (tok : String) : Option Int :=
  (dtFieldsMsUTC tok).map (fun w => w + tz * 60000)

deriving instance DecidableEq for Except

/- ===================== Theorems ===================== -/

lemma jsDateLocal_cancel (tz : Int) (a b c d e f : List Char) :
    (jsDateLocal tz a b c d e f).map (fun t => t - tz * 60000) =
      jsDateUTC a b c d e f := by
  unfold jsDateLocal
  cases jsDateUTC a b c d e f <;> simp

lemma localPartsMs_cancel (tz : Int) (ymd hms : String) :
    localPartsMs tz ymd hms =
      jsDateUTC (jsSlice ymd 0 4) (jsSlice ymd 4 6) (jsSlice ymd 6 8)
        (jsSlice hms 0 2) (jsSlice hms 2 4) (jsSlice hms 4 6) := by
  unfold localPartsMs
  exact jsDateLocal_cancel ..

lemma localDTMs_cancel (tz : Int) (s : String) :
    localDTMs tz s = dtFieldsMsUTC s := by
  unfold localDTMs dtFieldsMsUTC
  exact jsDateLocal_cancel ..

/-- C1: for a DTSTART token of the bare date shape that denotes a real
    calendar date, normalizeDates yields isAllDay true and start equal to the
    UTC midnight of the numeric fields rendered by toISOString, independent of
    the local zone offset tz, and, when DTEND is absent or not itself a bare
    date token, end is exactly 24 hours after start. -/
theorem C1_bare_date_all_day (tz nowMs : Int) (ds : String) (de : Option String)
    (hshape : dateOnly ds = true) (w : Int) (hval : bareMsUTC ds = some w)
    (hde : de = none ∨ ∃ s, de = some s ∧ dateOnly s = false) :
    normalizeDates tz nowMs (some ds) de =
      .ok ⟨isoOfMillis w, isoOfMillis (w + 86400000), true⟩ := by
  have hl : localPartsMs tz ds "000000" = some w := by
    rw [localPartsMs_cancel]; exact hval
  rcases hde with rfl | ⟨s, rfl, hs⟩
  · simp [normalizeDates, hshape, hl]
  · simp [normalizeDates, hshape, hl, hs]

/-- C1 witness: DTSTART 20250101 with no DTEND yields the documented pair of
    ISO strings, here at local offset -120 minutes. -/
theorem C1_witness :
    dateOnly "20250101" = true ∧ bareMsUTC "20250101" = some 1735689600000 ∧
    normalizeDates (-120) 0 (some "20250101") none =
      .ok ⟨"2025-01-01T00:00:00.000Z", "2025-01-02T00:00:00.000Z", true⟩ := by
  refine ⟨by decide, by decide, ?_⟩
  rw [C1_bare_date_all_day (-120) 0 "20250101" none (by decide) 1735689600000
    (by decide) (Or.inl rfl),
    show isoOfMillis 1735689600000 = "2025-01-01T00:00:00.000Z" from by decide,
    show isoOfMillis (1735689600000 + 86400000) = "2025-01-02T00:00:00.000Z" from by decide]

/-- C7: a DTSTART that is absent or matches none of the three accepted shapes
    makes normalizeDates fall back to the parse instant for both start and
    end, with isAllDay false, and this is an ordinary result rather than an
    error. -/
theorem C7_malformed_now_fallback (tz nowMs : Int) (dtstart dtend : Option String)
    (h : dtstart = none ∨ ∃ ds, dtstart = some ds ∧ dateOnly ds = false ∧
        dateTimeZ ds = false ∧ dateTimeLocal ds = false) :
    normalizeDates tz nowMs dtstart dtend =
      .ok ⟨isoOfMillis nowMs, isoOfMillis nowMs, false⟩ := by
  rcases h with rfl | ⟨ds, rfl, h1, h2, h3⟩
  · rfl
  · simp [normalizeDates, h1, h2, h3]

/-- C7 witness: a malformed token at parse instant 0 yields the epoch ISO
    string twice. -/
theorem C7_witness :
    normalizeDates 0 0 (some "TBD") (some "20250101T120000Z") =
      .ok ⟨"1970-01-01T00:00:00.000Z", "1970-01-01T00:00:00.000Z", false⟩ := by
  rw [C7_malformed_now_fallback 0 0 (some "TBD") (some "20250101T120000Z")
    (Or.inr ⟨"TBD", rfl, by decide, by decide, by decide⟩),
    show isoOfMillis 0 = "1970-01-01T00:00:00.000Z" from by decide]

lemma toUTCStringFromLocalDateTime_offset_independent (o1 o2 : Int) (tok : String) :
    toUTCStringFromLocalDateTime o1 tok = toUTCStringFromLocalDateTime o2 tok := by
  unfold toUTCStringFromLocalDateTime
  rw [localDTMs_cancel, localDTMs_cancel]

/-- C8 counterexample: at the concrete floating token 20250615T180000, runs
    at local offsets -120, 0 and 600 minutes all produce the same instant,
    namely the numeric fields read directly as UTC, and the result differs
    from the claimed interpretation of the fields in the local zone; the
    local reading and the offset subtraction cancel, so no divergence between
    deployments arises here, contrary to the claim. -/
theorem C8_counterexample :
    toUTCStringFromLocalDateTime (-120) "20250615T180000" =
      toUTCStringFromLocalDateTime 0 "20250615T180000" ∧
    toUTCStringFromLocalDateTime 600 "20250615T180000" =
      toUTCStringFromLocalDateTime 0 "20250615T180000" ∧
    toUTCStringFromLocalDateTime (-120) "20250615T180000" =
      .ok "2025-06-15T18:00:00.000Z" ∧
    claimedLocalInterpretation (-120) "20250615T180000" ≠
      localDTMs (-120) "20250615T180000" := by
  decide

/-- C8 amended: for a floating local DTSTART token the normalizer reads the
    numeric fields directly as UTC (the local time interpretation and the
    offset subtraction cancel), so the result is identical under every fixed
    local zone offset and normalization is reproducible across deployments. -/
theorem C8_floating_local_reads_fields_as_UTC (tz nowMs : Int) (ds : String)
    (hbare : dateOnly ds = false) (hz : dateTimeZ ds = false)
    (hshape : dateTimeLocal ds = true) (w : Int)
    (hval : dtFieldsMsUTC ds = some w) :
    normalizeDates tz nowMs (some ds) none =
      .ok ⟨isoOfMillis w, isoOfMillis w, false⟩ := by
  have hl : localDTMs tz ds = some w := by rw [localDTMs_cancel]; exact hval
  simp [normalizeDates, hbare, hz, hshape, toUTCStringFromLocalDateTime, hl]

/-- C8 amended witness: the token 20250615T180000 yields 18:00 UTC at offset
    -120 exactly as at offset 0. -/
theorem C8_amended_witness :
    normalizeDates (-120) 0 (some "20250615T180000") none =
      .ok ⟨"2025-06-15T18:00:00.000Z", "2025-06-15T18:00:00.000Z", false⟩ ∧
    normalizeDates 600 0 (some "20250615T180000") none =
      normalizeDates (-120) 0 (some "20250615T180000") none := by
  constructor
  · rw [C8_floating_local_reads_fields_as_UTC (-120) 0 "20250615T180000"
      (by decide) (by decide) (by decide) 1750010400000 (by decide),
      show isoOfMillis 1750010400000 = "2025-06-15T18:00:00.000Z" from by decide]
  · rw [C8_floating_local_reads_fields_as_UTC 600 0 "20250615T180000"
      (by decide) (by decide) (by decide) 1750010400000 (by decide),
      C8_floating_local_reads_fields_as_UTC (-120) 0 "20250615T180000"
      (by decide) (by decide) (by decide) 1750010400000 (by decide)]

/-- C2: the claim of totality fails on the code.  A DTSTART that matches the
    accepted UTC shape but denotes an impossible time (second 61) produces an
    invalid Date inside isoFromICSUTC, whose toISOString throws, so parseICS
    throws instead of substituting a default value. -/
theorem C2_shape_valid_impossible_date_throws :
    dateTimeZ "20250101T000061Z" = true ∧
    (parseICS 0 0 "BEGIN:VEVENT\nDTSTART:20250101T000061Z\nEND:VEVENT").toOption
      = none := by
  exact ⟨by decide, by decide⟩

/-- C10: evaluation of the routing chain.  The suffix dispatch works as
    claimed, including extra leading segments and trailing slashes, but the
    root pathname is routed to 404: stripping trailing slashes turns the
    pathname slash into the empty string before the health check compares it
    against the slash string, so the health check branch is unreachable and
    the liveness response never happens. -/
theorem C10_routing_eval :
    route "/" = .notFound ∧ route "/api/events/raw" = .eventsRaw ∧
    route "/api/news/raw" = .newsRaw ∧ route "/api/events" = .events ∧
    route "/api/news" = .news ∧ route "/api/events/" = .events ∧
    route "/anything/api/events" = .events ∧ route "/api/news/raw/" = .newsRaw ∧
    route "/other" = .notFound ∧ route "//" = .notFound := by
  decide

/-- C6: when the upstream URL of a feed is not configured, the two operations
    of that feed return the single 400 response with the exact JSON error
    body and perform no effect at all (no cache probe, no upstream fetch),
    and each operation is wholly independent of the other feed
    configuration. -/
theorem C6_missing_env_config_400 (tz nowMs : Int) (env : Env) (w : World)
    (daysQ limitQ : Option String) :
    (env.icalUrl = none →
      eventsJSON tz nowMs env w daysQ limitQ =
        ([], .ok ⟨400, .json "\x7b\"error\":\"Missing ICAL_URL env\"\x7d"⟩) ∧
      rawICS env w =
        ([], .ok ⟨400, .json "\x7b\"error\":\"Missing ICAL_URL env\"\x7d"⟩)) ∧
    (env.newsRssUrl = none →
      newsJSON tz env w limitQ =
        ([], .ok ⟨400, .json "\x7b\"error\":\"Missing NEWS_RSS_URL env\"\x7d"⟩) ∧
      rawRSS env w =
        ([], .ok ⟨400, .json "\x7b\"error\":\"Missing NEWS_RSS_URL env\"\x7d"⟩)) ∧
    (∀ u, newsJSON tz { env with icalUrl := u } w limitQ = newsJSON tz env w limitQ ∧
      rawRSS { env with icalUrl := u } w = rawRSS env w ∧
      eventsJSON tz nowMs { env with newsRssUrl := u } w daysQ limitQ =
        eventsJSON tz nowMs env w daysQ limitQ ∧
      rawICS { env with newsRssUrl := u } w = rawICS env w) := by
  obtain ⟨i, n, c⟩ := env
  have hbi : (⟨400, .json "\x7b\"error\":\"Missing ICAL_URL env\"\x7d"⟩ : WResponse) =
      badRequest "Missing ICAL_URL env" := by decide
  have hbn : (⟨400, .json "\x7b\"error\":\"Missing NEWS_RSS_URL env\"\x7d"⟩ : WResponse) =
      badRequest "Missing NEWS_RSS_URL env" := by decide
  refine ⟨?_, ?_, ?_⟩
  · intro h
    cases i with
    | none => exact ⟨by rw [hbi]; rfl, by rw [hbi]; rfl⟩
    | some v => exact Option.noConfusion h
  · intro h
    cases n with
    | none => exact ⟨by rw [hbn]; rfl, by rw [hbn]; rfl⟩
    | some v => exact Option.noConfusion h
  · intro u
    exact ⟨rfl, rfl, rfl, rfl⟩

/-- C6 witness: concrete missing ICAL_URL yields the 400 body, and the news
    operation is unaffected by the ICAL_URL value. -/
theorem C6_witness :
    eventsJSON 0 0 ⟨none, some "https://rss", none⟩ ⟨none, true, "", false⟩ none none =
      ([], .ok ⟨400, .json "\x7b\"error\":\"Missing ICAL_URL env\"\x7d"⟩) ∧
    newsJSON 0 ⟨none, some "https://rss", none⟩ ⟨none, true, "", false⟩ none =
      newsJSON 0 ⟨some "u", some "https://rss", none⟩ ⟨none, true, "", false⟩ none := by
  refine ⟨((C6_missing_env_config_400 0 0 ⟨none, some "https://rss", none⟩
    ⟨none, true, "", false⟩ none none).1 rfl).1, ?_⟩
  exact ((C6_missing_env_config_400 0 0 ⟨some "u", some "https://rss", none⟩
    ⟨none, true, "", false⟩ none none).2.2 none).1

/-- C9 amended: on a cache miss with a healthy upstream, every handler
    performs the cache write as its last effect before producing the result
    and awaits it: when the put succeeds the built response is returned, and
    when the put rejects the exception propagates and no response is
    returned at all. -/
theorem C9_cache_write_awaited (tz nowMs : Int) (u1 u2 : String) (env : Env)
    (w : World) (daysQ limitQ : Option String) (evs : List ICSEvent)
    (h1 : env.icalUrl = some u1) (h2 : env.newsRssUrl = some u2)
    (hmiss : w.cache = none) (hok : w.upstreamOk = true)
    (hparse : parseICS tz nowMs w.upstreamBody = .ok evs) :
    eventsJSON tz nowMs env w daysQ limitQ =
      ([.cacheGet, .fetchUpstream u1, .cachePut],
        if w.putFails then .error ()
        else .ok ⟨200, .eventsBody (eventsPayloadCore nowMs evs daysQ limitQ)⟩) ∧
    rawICS env w =
      ([.cacheGet, .fetchUpstream u1, .cachePut],
        if w.putFails then .error ()
        else .ok ⟨200, .calendarBody w.upstreamBody⟩) ∧
    newsJSON tz env w limitQ =
      ([.cacheGet, .fetchUpstream u2, .cachePut],
        if w.putFails then .error ()
        else .ok ⟨200, .newsBody (newsPayloadCore (parseRSS tz w.upstreamBody) limitQ)⟩) ∧
    rawRSS env w =
      ([.cacheGet, .fetchUpstream u2, .cachePut],
        if w.putFails then .error ()
        else .ok ⟨200, .rssBody w.upstreamBody⟩) := by
  obtain ⟨i, n, c⟩ := env
  obtain ⟨cc, ok, body, pf⟩ := w
  simp only at h1 h2 hmiss hok hparse
  subst h1; subst h2; subst hmiss; subst hok
  simp [eventsJSON, rawICS, newsJSON, rawRSS, hparse]

/-- C9 counterexample: with a rejecting cache put on a cache miss the events
    handler raises instead of returning the already built response, because
    the put is awaited on the response path; a cache write failure therefore
    does affect the client visible response. -/
theorem C9_counterexample :
    eventsJSON 0 0 ⟨some "https://ics", none, none⟩ ⟨none, true, "", true⟩ none none =
      ([.cacheGet, .fetchUpstream "https://ics", .cachePut], .error ()) := by
  decide

/-- C9 amended witness: concrete miss with a succeeding put returns the
    response, after the put. -/
theorem C9_witness :
    eventsJSON 0 0 ⟨some "a", some "b", none⟩ ⟨none, true, "", false⟩ none none =
      ([.cacheGet, .fetchUpstream "a", .cachePut],
        .ok ⟨200, .eventsBody (eventsPayloadCore 0 [] none none)⟩) ∧
    rawRSS ⟨some "a", some "b", none⟩ ⟨none, true, "", false⟩ =
      ([.cacheGet, .fetchUpstream "b", .cachePut], .ok ⟨200, .rssBody ""⟩) := by
  have h := C9_cache_write_awaited 0 0 "a" "b" ⟨some "a", some "b", none⟩
    ⟨none, true, "", false⟩ none none [] rfl rfl rfl rfl (by decide)
  exact ⟨h.1, h.2.2.2⟩

/-- C4 counterexample: with three matching events and the query limit 2.5,
    the clamp keeps the fractional limit, the reported count is 2.5 while the
    events array holds two items, so count is not the number of items
    actually returned. -/
theorem C4_counterexample :
    (eventsPayloadCore 0 [mkEv "1970-01-01T10:00:00.000Z",
        mkEv "1970-01-02T10:00:00.000Z", mkEv "1970-01-03T10:00:00.000Z"]
        none (some "2.5")).count = 5 / 2 ∧
    (eventsPayloadCore 0 [mkEv "1970-01-01T10:00:00.000Z",
        mkEv "1970-01-02T10:00:00.000Z", mkEv "1970-01-03T10:00:00.000Z"]
        none (some "2.5")).events.length = 2 ∧
    (5 : ℚ) / 2 ≠ (2 : ℚ) := by
  decide

lemma min_cast_floor_eq (L : ℚ) (hL1 : 1 ≤ L)
    (hInt : ((Rat.floor L : Int) : ℚ) = L) (n : Nat) :
    min L (n : ℚ) = ((min (Rat.floor L).toNat n : Nat) : ℚ) := by
  have h0 : (0 : Int) ≤ Rat.floor L := by
    have : (1 : Int) ≤ Rat.floor L := by
      rw [Rat.le_floor]; exact_mod_cast hL1
    omega
  have hcast : (((Rat.floor L).toNat : Nat) : ℚ) = L := by
    rw [← hInt]
    exact_mod_cast congrArg (fun z : Int => (z : ℚ)) (Int.toNat_of_nonneg h0)
  rw [Nat.cast_min, hcast]

/-- C4 amended: days and limit always land in their documented ranges, a
    missing days defaults to 365 and a missing limit to the match count
    before clamping, the reported count is min of limit and match count, and
    count equals the number of items actually returned whenever the clamped
    limit is an integer (in particular for missing or integer valued limit
    values); a fractional in range limit makes count fractional while the
    slice truncates, for both the events and the news payloads. -/
theorem C4_clamping_and_count (nowMs : Int) (events : List ICSEvent)
    (items : List RSSItem) (daysQ limitQ : Option String) :
    (1 ≤ clamp ((int daysQ).getD DEFAULT_DAYS_AHEAD) 1 3650 ∧
      clamp ((int daysQ).getD DEFAULT_DAYS_AHEAD) 1 3650 ≤ 3650) ∧
    (daysQ = none → clamp ((int daysQ).getD DEFAULT_DAYS_AHEAD) 1 3650 = 365) ∧
    (∀ n : ℚ, 1 ≤ clamp ((int limitQ).getD n) 1 MAX_LIMIT ∧
      clamp ((int limitQ).getD n) 1 MAX_LIMIT ≤ 500) ∧
    (eventsPayloadCore nowMs events daysQ limitQ).count =
      min (clamp ((int limitQ).getD
          ((upcomingEvents nowMs events daysQ).length : ℚ)) 1 MAX_LIMIT)
        ((upcomingEvents nowMs events daysQ).length : ℚ) ∧
    (((Rat.floor (clamp ((int limitQ).getD
            ((upcomingEvents nowMs events daysQ).length : ℚ)) 1 MAX_LIMIT) : Int) : ℚ) =
        clamp ((int limitQ).getD ((upcomingEvents nowMs events daysQ).length : ℚ))
          1 MAX_LIMIT →
      (eventsPayloadCore nowMs events daysQ limitQ).count =
        ((eventsPayloadCore nowMs events daysQ limitQ).events.length : ℚ)) ∧
    (((Rat.floor (clamp ((int limitQ).getD (items.length : ℚ)) 1 MAX_LIMIT) : Int) : ℚ) =
        clamp ((int limitQ).getD (items.length : ℚ)) 1 MAX_LIMIT →
      (newsPayloadCore items limitQ).count =
        ((newsPayloadCore items limitQ).items.length : ℚ)) := by
  refine ⟨⟨le_max_left _ _, max_le (by norm_num) (min_le_left _ _)⟩, ?_, ?_, rfl, ?_, ?_⟩
  · intro h
    subst h
    show max 1 (min 3650 ((int none).getD DEFAULT_DAYS_AHEAD)) = 365
    norm_num [int, DEFAULT_DAYS_AHEAD]
  · intro n
    exact ⟨le_max_left _ _, max_le (by norm_num [MAX_LIMIT]) (min_le_left _ _)⟩
  · intro hInt
    have hL1 : 1 ≤ clamp ((int limitQ).getD
        ((upcomingEvents nowMs events daysQ).length : ℚ)) 1 MAX_LIMIT :=
      le_max_left _ _
    show min _ ((upcomingEvents nowMs events daysQ).length : ℚ) =
      (((upcomingEvents nowMs events daysQ).take _).length : ℚ)
    rw [List.length_take]
    exact min_cast_floor_eq _ hL1 hInt _
  · intro hInt
    have hL1 : 1 ≤ clamp ((int limitQ).getD (items.length : ℚ)) 1 MAX_LIMIT :=
      le_max_left _ _
    show min _ ((items.length : ℚ)) = ((items.take _).length : ℚ)
    rw [List.length_take]
    exact min_cast_floor_eq _ hL1 hInt _

/-- C4 witness: missing days defaults to 365 and an integer limit makes count
    equal the number of returned items. -/
theorem C4_witness :
    clamp ((int none).getD DEFAULT_DAYS_AHEAD) 1 3650 = 365 ∧
    (eventsPayloadCore 0 [mkEv "1970-01-01T10:00:00.000Z",
        mkEv "1970-01-02T10:00:00.000Z", mkEv "1970-01-03T10:00:00.000Z"]
        none (some "2")).count =
      (((eventsPayloadCore 0 [mkEv "1970-01-01T10:00:00.000Z",
        mkEv "1970-01-02T10:00:00.000Z", mkEv "1970-01-03T10:00:00.000Z"]
        none (some "2")).events.length : Nat) : ℚ) := by
  have h := C4_clamping_and_count 0 [mkEv "1970-01-01T10:00:00.000Z",
    mkEv "1970-01-02T10:00:00.000Z", mkEv "1970-01-03T10:00:00.000Z"]
    [] none (some "2")
  exact ⟨h.2.1 rfl, h.2.2.2.2.1 (by decide)⟩

lemma mem_insRevBy (cmp : α → α → Option ℚ) (x : α) (l : List α) (a : α) :
    a ∈ insRevBy cmp x l ↔ a = x ∨ a ∈ l := by
  induction l with
  | nil => simp [insRevBy]
  | cons y t ih =>
    simp only [insRevBy]
    split
    · simp only [List.mem_cons, ih]
      try tauto
    · simp only [List.mem_cons]
      try tauto

lemma mem_foldl_insRevBy (cmp : α → α → Option ℚ) (l acc : List α) (a : α) :
    a ∈ l.foldl (fun acc x => insRevBy cmp x acc) acc ↔ a ∈ acc ∨ a ∈ l := by
  induction l generalizing acc with
  | nil => simp
  | cons x t ih =>
    simp only [List.foldl_cons, ih, mem_insRevBy, List.mem_cons]
    tauto

lemma mem_jsSortBy (cmp : α → α → Option ℚ) (l : List α) (a : α) :
    a ∈ jsSortBy cmp l ↔ a ∈ l := by
  simp [jsSortBy, mem_foldl_insRevBy]

lemma descBy_of_le (tz : Int) (a b : RSSItem) (ka kb : Int)
    (ha : pubKey tz a = some ka) (hb : pubKey tz b = some kb) (h : kb ≤ ka) :
    descBy tz a b := by
  intro x y hx hy
  rw [ha] at hx; rw [hb] at hy
  cases hx; cases hy
  exact h

lemma key_lt_of_pos (tz : Int) (y x : RSSItem) (ky kx : Int)
    (hky : pubKey tz y = some ky) (hkx : pubKey tz x = some kx)
    (h : 0 < jsCmpNum (cmpItems tz y x)) : ky < kx := by
  simp only [cmpItems, hky, hkx, jsCmpNum, Option.getD_some] at h
  have := sub_pos.mp h
  exact_mod_cast this

lemma key_le_of_not_pos (tz : Int) (y x : RSSItem) (ky kx : Int)
    (hky : pubKey tz y = some ky) (hkx : pubKey tz x = some kx)
    (h : ¬ 0 < jsCmpNum (cmpItems tz y x)) : kx ≤ ky := by
  simp only [cmpItems, hky, hkx, jsCmpNum, Option.getD_some, not_lt] at h
  have := sub_nonpos.mp h
  exact_mod_cast this

lemma insRev_pairwise (tz : Int) (x : RSSItem) (acc : List RSSItem)
    (hx : (pubKey tz x).isSome) (hacc : ∀ y ∈ acc, (pubKey tz y).isSome)
    (hp : acc.Pairwise (fun a b => descBy tz b a)) :
    (insRevBy (cmpItems tz) x acc).Pairwise (fun a b => descBy tz b a) := by
  induction acc with
  | nil => simp [insRevBy]
  | cons y t ih =>
    obtain ⟨kx, hkx⟩ := Option.isSome_iff_exists.mp hx
    obtain ⟨ky, hky⟩ := Option.isSome_iff_exists.mp (hacc y (List.mem_cons_self y t))
    rw [List.pairwise_cons] at hp
    obtain ⟨hyt, hpt⟩ := hp
    simp only [insRevBy]
    by_cases hlt : 0 < jsCmpNum (cmpItems tz y x)
    · rw [if_pos hlt, List.pairwise_cons]
      constructor
      · intro z hz
        rcases (mem_insRevBy _ _ _ _).mp hz with rfl | hzt
        · exact descBy_of_le tz z y kx ky hkx hky
            (le_of_lt (key_lt_of_pos tz y z ky kx hky hkx hlt))
        · exact hyt z hzt
      · exact ih (fun u hu => hacc u (List.mem_cons_of_mem y hu)) hpt
    · rw [if_neg hlt, List.pairwise_cons]
      constructor
      · intro z hz
        rcases List.mem_cons.mp hz with rfl | hzt
        · exact descBy_of_le tz z x ky kx hky hkx
            (key_le_of_not_pos tz z x ky kx hky hkx hlt)
        · obtain ⟨kz, hkz⟩ := Option.isSome_iff_exists.mp
            (hacc z (List.mem_cons_of_mem y hzt))
          have h1 : kx ≤ ky := key_le_of_not_pos tz y x ky kx hky hkx hlt
          have h2 : ky ≤ kz := hyt z hzt kz ky hkz hky
          exact descBy_of_le tz z x kz kx hkz hkx (le_trans h1 h2)
      · rw [List.pairwise_cons]
        exact ⟨hyt, hpt⟩

lemma foldl_insRev_pairwise (tz : Int) (l : List RSSItem) :
    ∀ acc : List RSSItem, (∀ y ∈ l, (pubKey tz y).isSome) →
      (∀ y ∈ acc, (pubKey tz y).isSome) →
      acc.Pairwise (fun a b => descBy tz b a) →
      (l.foldl (fun acc x => insRevBy (cmpItems tz) x acc) acc).Pairwise
        (fun a b => descBy tz b a) := by
  induction l with
  | nil => intro acc _ _ hp; exact hp
  | cons x t ih =>
    intro acc hl hacc hp
    simp only [List.foldl_cons]
    refine ih _ (fun y hy => hl y (List.mem_cons_of_mem x hy)) ?_ ?_
    · intro y hy
      rcases (mem_insRevBy _ _ _ _).mp hy with rfl | hya
      · exact hl y (List.mem_cons_self y t)
      · exact hacc y hya
    · exact insRev_pairwise tz x acc (hl x (List.mem_cons_self x t)) hacc hp

/-- C3 amended: whenever every extracted item has a pubDate whose Date.parse
    yields a number, the returned list is sorted descending by that parse and
    holds exactly the extracted items.  With an unparseable or missing
    pubDate the comparator yields NaN, which the sort treats as a tie, so the
    comparator is inconsistent and no placement guarantee exists. -/
theorem C3_sorted_desc_when_all_parse (tz : Int) (xml : String)
    (h : ∀ it ∈ rssItems xml, (pubKey tz it).isSome) :
    (parseRSS tz xml).Pairwise (descBy tz) ∧
    (∀ it, it ∈ parseRSS tz xml ↔ it ∈ rssItems xml) := by
  constructor
  · show (jsSortBy (cmpItems tz) (rssItems xml)).Pairwise (descBy tz)
    unfold jsSortBy
    rw [List.pairwise_reverse]
    exact foldl_insRev_pairwise tz (rssItems xml) [] h (by simp) (by simp)
  · intro it
    exact mem_jsSortBy (cmpItems tz) (rssItems xml) it

/-- Two item feed with parseable dates, for the C3 amended witness. -/
def xmlC3w : String :=
  "<item><pubDate>2020-01-01T00:00:00Z</pubDate></item>" ++
    "<item><pubDate>2025-01-01T00:00:00Z</pubDate></item>"

/-- C3 amended witness: on a concrete feed whose pubDates all parse, the
    output is pairwise descending and is exactly the extracted item set. -/
theorem C3_witness :
    (parseRSS 0 xmlC3w).Pairwise (descBy 0) ∧
    (∀ it, it ∈ parseRSS 0 xmlC3w ↔ it ∈ rssItems xmlC3w) :=
  C3_sorted_desc_when_all_parse 0 xmlC3w (by decide)

/-- C3 counterexample: on the concrete feed with items dated 2020,
    unparseable, 2025 in that order, the sort leaves the order unchanged
    because every comparison against the NaN key counts as a tie; the later
    dated item ends last instead of first and the unparseable item sits in
    the middle instead of last, refuting both the descending order and the
    unparseable sorts last conduct stated by the claim. -/
theorem C3_counterexample :
    (parseRSS 0 xmlC3).map (fun it => it.title) = ["A", "B", "C"] ∧
    (parseRSS 0 xmlC3).map (fun it => jsDateParse 0 it.pubDate) =
      [some 1577836800000, none, some 1735689600000] ∧
    (1577836800000 : Int) < 1735689600000 := by
  decide

lemma hasTag_cons (c : Char) (l : List Char) :
    hasTag (c :: l) = (tagHeadCond c l || hasTag l) := rfl

lemma tagHeadCond_false_iff (c : Char) (l : List Char) :
    tagHeadCond c l = false ↔
      (c ≠ '<' ∨ l = [] ∨ l.head? = some '>' ∨ '>' ∉ l) := by
  unfold tagHeadCond
  cases l with
  | nil => simp
  | cons d t =>
    by_cases hd : d = '>'
    · subst hd
      simp [List.takeWhile_cons]
    · by_cases hc : c = '<'
      · subst hc
        simp only [List.takeWhile_cons, List.dropWhile_cons, hd]
        simp [hd, List.dropWhile_eq_nil_iff, List.mem_cons]
        constructor
        · intro hall
          exact ⟨fun he => hd he.symm, fun hm => (hall _ hm) rfl⟩
        · intro hnm x hx he
          exact hnm.2 (he ▸ hx)
      · simp [hc]

lemma hasTag_eq_false_of_not_mem (l : List Char) (h : '>' ∉ l) :
    hasTag l = false := by
  induction l with
  | nil => rfl
  | cons c t ih =>
    rw [hasTag_cons, Bool.or_eq_false_iff]
    exact ⟨(tagHeadCond_false_iff _ _).mpr
        (Or.inr (Or.inr (Or.inr (fun hm => h (List.mem_cons_of_mem c hm))))),
      ih (fun hm => h (List.mem_cons_of_mem c hm))⟩

lemma hasTag_removeTagsAux : ∀ (l : List Char) (st : Option (List Char)),
    (∀ buf, st = some buf → '>' ∉ buf) → hasTag (removeTagsAux st l) = false := by
  intro l
  induction l with
  | nil =>
    intro st hst
    cases st with
    | none => rfl
    | some buf =>
      show hasTag ('<' :: buf.reverse) = false
      rw [hasTag_cons, Bool.or_eq_false_iff]
      have hb : '>' ∉ buf.reverse := by
        intro hm; exact hst buf rfl (List.mem_reverse.mp hm)
      exact ⟨(tagHeadCond_false_iff _ _).mpr (Or.inr (Or.inr (Or.inr hb))),
        hasTag_eq_false_of_not_mem _ hb⟩
  | cons c rest ih =>
    intro st hst
    cases st with
    | none =>
      show hasTag (if c = '<' then removeTagsAux (some []) rest
        else c :: removeTagsAux none rest) = false
      by_cases hc : c = '<'
      · rw [if_pos hc]
        exact ih (some []) (by intro buf hb; cases hb; simp)
      · rw [if_neg hc, hasTag_cons, Bool.or_eq_false_iff]
        exact ⟨(tagHeadCond_false_iff _ _).mpr (Or.inl hc),
          ih none (by intro buf h; cases h)⟩
    | some buf =>
      show hasTag (if c = '>' then
          (if buf.isEmpty then '<' :: '>' :: removeTagsAux none rest
            else removeTagsAux none rest)
        else removeTagsAux (some (c :: buf)) rest) = false
      by_cases hc : c = '>'
      · rw [if_pos hc]
        by_cases hb : buf.isEmpty
        · rw [if_pos hb, hasTag_cons, Bool.or_eq_false_iff]
          constructor
          · exact (tagHeadCond_false_iff _ _).mpr (Or.inr (Or.inr (Or.inl rfl)))
          · rw [hasTag_cons, Bool.or_eq_false_iff]
            exact ⟨(tagHeadCond_false_iff _ _).mpr (Or.inl (by decide)),
              ih none (by intro b h; cases h)⟩
        · rw [if_neg hb]
          exact ih none (by intro b h; cases h)
      · rw [if_neg hc]
        refine ih (some (c :: buf)) ?_
        intro b hb
        cases hb
        intro hm
        rcases List.mem_cons.mp hm with he | ht
        · exact hc he.symm
        · exact hst buf rfl ht

lemma hasTag_removeTags (l : List Char) : hasTag (removeTags l) = false :=
  hasTag_removeTagsAux l none (by intro buf h; cases h)

lemma not_gt_newlinesToSpace (l : List Char) (h : '>' ∉ l) :
    '>' ∉ newlinesToSpace l := by
  induction l using newlinesToSpace.induct with
  | case1 rest ih => simp_all [newlinesToSpace]
  | case2 rest ih => simp_all [newlinesToSpace]
  | case3 rest ih => simp_all [newlinesToSpace]
  | case4 c rest h1 h2 h3 ih => simp_all [newlinesToSpace]
  | case5 => simp [newlinesToSpace]

lemma newlinesToSpace_gt_cons (r : List Char) :
    newlinesToSpace ('>' :: r) = '>' :: newlinesToSpace r := rfl

lemma hasTag_newlinesToSpace : ∀ l : List Char, hasTag l = false →
    hasTag (newlinesToSpace l) = false := by
  intro l
  induction l using newlinesToSpace.induct with
  | case1 rest ih =>
    intro h
    rw [hasTag_cons, Bool.or_eq_false_iff] at h
    obtain ⟨-, h2⟩ := h
    rw [hasTag_cons, Bool.or_eq_false_iff] at h2
    rw [show newlinesToSpace ('\r' :: '\n' :: rest) = ' ' :: newlinesToSpace rest
      from rfl]
    rw [hasTag_cons, Bool.or_eq_false_iff]
    exact ⟨(tagHeadCond_false_iff _ _).mpr (Or.inl (by decide)), ih h2.2⟩
  | case2 rest ih =>
    intro h
    rw [hasTag_cons, Bool.or_eq_false_iff] at h
    rw [show newlinesToSpace ('\n' :: rest) = ' ' :: newlinesToSpace rest from rfl]
    rw [hasTag_cons, Bool.or_eq_false_iff]
    exact ⟨(tagHeadCond_false_iff _ _).mpr (Or.inl (by decide)), ih h.2⟩
  | case3 rest h1 ih =>
    intro h
    rw [hasTag_cons, Bool.or_eq_false_iff] at h
    simp only [newlinesToSpace]
    rw [hasTag_cons, Bool.or_eq_false_iff]
    exact ⟨(tagHeadCond_false_iff _ _).mpr (Or.inl (by decide)), ih h.2⟩
  | case4 c rest h1 h2 h3 ih =>
    intro h
    rw [hasTag_cons, Bool.or_eq_false_iff] at h
    obtain ⟨hc, hr⟩ := h
    simp only [newlinesToSpace]
    rw [hasTag_cons, Bool.or_eq_false_iff]
    refine ⟨?_, ih hr⟩
    rcases (tagHeadCond_false_iff _ _).mp hc with hx | hx | hx | hx
    · exact (tagHeadCond_false_iff _ _).mpr (Or.inl hx)
    · subst hx
      exact (tagHeadCond_false_iff _ _).mpr (Or.inr (Or.inl rfl))
    · cases rest with
      | nil => simp at hx
      | cons d r =>
        have hd : d = '>' := by simpa using hx
        subst hd
        rw [newlinesToSpace_gt_cons]
        exact (tagHeadCond_false_iff _ _).mpr (Or.inr (Or.inr (Or.inl rfl)))
    · exact (tagHeadCond_false_iff _ _).mpr
        (Or.inr (Or.inr (Or.inr (not_gt_newlinesToSpace rest hx))))
  | case5 => intro h; exact h

lemma not_gt_collapseWS : ∀ (l : List Char) (b : Bool), '>' ∉ l →
    '>' ∉ collapseWS b l := by
  intro l
  induction l with
  | nil => intro b _ hm; simp [collapseWS] at hm
  | cons c rest ih =>
    intro b h
    show '>' ∉ (if jsWS c then
        (if b then collapseWS true rest else ' ' :: collapseWS true rest)
      else c :: collapseWS false rest)
    have hr : '>' ∉ rest := fun hm => h (List.mem_cons_of_mem c hm)
    by_cases hw : jsWS c
    · rw [if_pos hw]
      by_cases hb : b
      · rw [if_pos hb]; exact ih true hr
      · rw [if_neg hb]
        intro hm
        rcases List.mem_cons.mp hm with he | hm2
        · exact absurd he (by decide)
        · exact ih true hr hm2
    · rw [if_neg hw]
      intro hm
      rcases List.mem_cons.mp hm with he | hm2
      · exact h (he ▸ List.mem_cons_self c rest)
      · exact ih false hr hm2

lemma hasTag_collapseWS : ∀ (l : List Char) (b : Bool), hasTag l = false →
    hasTag (collapseWS b l) = false := by
  intro l
  induction l with
  | nil => intro b _; rfl
  | cons c rest ih =>
    intro b h
    rw [hasTag_cons, Bool.or_eq_false_iff] at h
    obtain ⟨hc, hr⟩ := h
    show hasTag (if jsWS c then
        (if b then collapseWS true rest else ' ' :: collapseWS true rest)
      else c :: collapseWS false rest) = false
    by_cases hw : jsWS c
    · rw [if_pos hw]
      by_cases hb : b
      · rw [if_pos hb]; exact ih true hr
      · rw [if_neg hb, hasTag_cons, Bool.or_eq_false_iff]
        exact ⟨(tagHeadCond_false_iff _ _).mpr (Or.inl (by decide)), ih true hr⟩
    · rw [if_neg hw, hasTag_cons, Bool.or_eq_false_iff]
      refine ⟨?_, ih false hr⟩
      rcases (tagHeadCond_false_iff _ _).mp hc with hx | hx | hx | hx
      · exact (tagHeadCond_false_iff _ _).mpr (Or.inl hx)
      · subst hx
        exact (tagHeadCond_false_iff _ _).mpr (Or.inr (Or.inl rfl))
      · cases rest with
        | nil => simp at hx
        | cons d r =>
          have hd : d = '>' := by simpa using hx
          subst hd
          have hgt : jsWS '>' = false := by decide
          exact (tagHeadCond_false_iff _ _).mpr (Or.inr (Or.inr (Or.inl
            (by rw [show collapseWS false ('>' :: r) = '>' :: collapseWS false r
              from by simp [collapseWS, hgt]]; rfl))))
      · exact (tagHeadCond_false_iff _ _).mpr
          (Or.inr (Or.inr (Or.inr (not_gt_collapseWS rest false hx))))

lemma hasTag_tail (l : List Char) (h : hasTag l = false) :
    hasTag l.tail = false := by
  cases l with
  | nil => exact h
  | cons c t =>
    rw [hasTag_cons, Bool.or_eq_false_iff] at h
    exact h.2

lemma hasTag_dropWhile (p : Char → Bool) (l : List Char)
    (h : hasTag l = false) : hasTag (l.dropWhile p) = false := by
  induction l with
  | nil => exact h
  | cons c t ih =>
    rw [List.dropWhile_cons]
    split
    · exact ih (hasTag_tail _ h)
    · exact h

lemma hasTag_take (n : Nat) (l : List Char) (h : hasTag l = false) :
    hasTag (l.take n) = false := by
  induction l generalizing n with
  | nil => rw [List.take_nil]; exact h
  | cons c t ih =>
    cases n with
    | zero => rfl
    | succ m =>
      rw [List.take_succ_cons, hasTag_cons, Bool.or_eq_false_iff]
      rw [hasTag_cons, Bool.or_eq_false_iff] at h
      obtain ⟨hc, ht⟩ := h
      refine ⟨?_, ih m ht⟩
      rcases (tagHeadCond_false_iff _ _).mp hc with hx | hx | hx | hx
      · exact (tagHeadCond_false_iff _ _).mpr (Or.inl hx)
      · subst hx
        exact (tagHeadCond_false_iff _ _).mpr (Or.inr (Or.inl (by simp)))
      · cases t with
        | nil => simp at hx
        | cons d r =>
          have hd : d = '>' := by simpa using hx
          subst hd
          cases m with
          | zero => exact (tagHeadCond_false_iff _ _).mpr (Or.inr (Or.inl rfl))
          | succ k =>
            exact (tagHeadCond_false_iff _ _).mpr (Or.inr (Or.inr (Or.inl
              (by rw [List.take_succ_cons]; rfl))))
      · exact (tagHeadCond_false_iff _ _).mpr (Or.inr (Or.inr (Or.inr
          (fun hm => hx (List.take_subset _ _ hm)))))

lemma hasTag_trimList (l : List Char) (h : hasTag l = false) :
    hasTag (trimList l) = false := by
  have h1 : hasTag (l.dropWhile jsWS) = false := hasTag_dropWhile _ _ h
  have hpre : trimList l <+: (l.dropWhile jsWS) := by
    show List.rdropWhile jsWS (l.dropWhile jsWS) <+: (l.dropWhile jsWS)
    exact List.rdropWhile_prefix _ _
  rw [List.prefix_iff_eq_take.mp hpre]
  exact hasTag_take _ _ h1

lemma hasTag_stripTags (l : List Char) : hasTag (stripTags l) = false := by
  unfold stripTags
  exact hasTag_trimList _ (hasTag_collapseWS _ false
    (hasTag_newlinesToSpace _ (hasTag_removeTags l)))

/-- C5 amended: every title, description and category value of parseRSS is
    the fixed entity set decode of a string that contains no tag shaped
    substring; raw markup and balanced CDATA wrappers are removed before the
    decode, but the final decode step can itself re materialize markup text
    from entities, so the decoded output is not markup free in general. -/
theorem C5_pipeline_no_raw_markup (tz : Int) (xml : String) (it : RSSItem)
    (hit : it ∈ parseRSS tz xml) :
    (∃ s, it.title = String.mk (decodeHTMLList s) ∧ hasTag s = false) ∧
    (∃ s, it.description = String.mk (decodeHTMLList s) ∧ hasTag s = false) ∧
    (∀ cstr ∈ it.categories, ∃ s, cstr = String.mk (decodeHTMLList s) ∧
      hasTag s = false) := by
  have hmem : it ∈ rssItems xml := (mem_jsSortBy _ _ _).mp hit
  rw [rssItems] at hmem
  obtain ⟨b, hb, rfl⟩ := List.mem_map.mp hmem
  refine ⟨⟨stripTags ((pickTagL "title".toList b).getD []), rfl, hasTag_stripTags _⟩,
    ⟨stripTags ((pickTagL "description".toList b).getD []), rfl, hasTag_stripTags _⟩,
    ?_⟩
  intro cstr hc
  obtain ⟨y, hy, rfl⟩ := List.mem_map.mp hc
  exact ⟨stripTags y, rfl, hasTag_stripTags _⟩

/-- C5 counterexample: on the concrete feed the title value decodes entity
    encoded tags back into markup text and the description value keeps a
    residual CDATA close marker, so the produced fields are neither markup
    free nor free of CDATA wrapper remnants. -/
theorem C5_counterexample :
    parseRSS 0 xmlC5 = [⟨"<b>Goal</b>", "", "", "", "x]]>", none, []⟩] ∧
    hasTagS "<b>Goal</b>" = true ∧
    "]]>".toList <:+: "x]]>".toList := by
  decide

/-- C5 amended witness: the concrete item of the xmlC5 feed satisfies the
    amended pipeline statement. -/
theorem C5_witness :
    (∃ s, RSSItem.title ⟨"<b>Goal</b>", "", "", "", "x]]>", none, []⟩ =
        String.mk (decodeHTMLList s) ∧ hasTag s = false) ∧
    (∃ s, RSSItem.description ⟨"<b>Goal</b>", "", "", "", "x]]>", none, []⟩ =
        String.mk (decodeHTMLList s) ∧ hasTag s = false) ∧
    (∀ cstr ∈ RSSItem.categories ⟨"<b>Goal</b>", "", "", "", "x]]>", none, []⟩,
      ∃ s, cstr = String.mk (decodeHTMLList s) ∧ hasTag s = false) :=
  C5_pipeline_no_raw_markup 0 xmlC5 ⟨"<b>Goal</b>", "", "", "", "x]]>", none, []⟩
    (by decide)

end HHF
